import Mathlib

/-!
Shallow embedding of the time-capsule record classification and lifecycle
engine (`brain.py`, `export_to_kb.py`): the record data model, the keyword
classifier `process_input`, the lifecycle mutation `update_status`, the
store initializer `init_memory`, the aggregators `get_report_data` and
`analyze_patterns`, the AI wrappers `call_ai_report` and
`call_ai_for_insights`, and the deduplication pass.

Timestamps are modelled as integer epoch seconds; monetary amounts as ℚ;
categories and statuses as the literal strings the source uses.
-/

namespace TimeCapsule

/-- A persisted record: one row of `memory.csv`, columns
`记录时间, 分类, 内容, 目标时间, 状态, 关联花销`. -/
structure Record where
  recordedAt : Int
  category : String
  content : String
  targetTime : Option Int
  status : String
  linkedCost : ℚ
  deriving DecidableEq, Repr

/-- One expense line item passed to `update_status` (`{"cost": c, "category": t}`). -/
structure ExpenseItem where
  cost : ℚ
  category : String
  deriving DecidableEq, Repr

/-- Boolean check that `needle` is a prefix of `hay`. -/
def isPrefixList [DecidableEq α] : List α → List α → Bool
  | [], _ => true
  | _ :: _, [] => false
  | a :: as, b :: bs => decide (a = b) && isPrefixList as bs

/-- Boolean check that `needle` occurs as a contiguous sublist of `hay`;
models Python's `k in text` substring containment. -/
def containsSubList [DecidableEq α] (needle : List α) : List α → Bool
  | [] => isPrefixList needle []
  | b :: bs => isPrefixList needle (b :: bs) || containsSubList needle bs

/-- Python `k in text` for strings. -/
def strContainsSub (text k : String) : Bool :=
  containsSubList k.data text.data

/-- Finance keywords from `process_input` (`brain.py` line 89). -/
def finance_keywords : List String := ["买", "花", "元", "块", "钱", "支付", "花费", "预算"]

/-- Schedule keywords from `process_input` (`brain.py` line 90). -/
def schedule_keywords : List String := ["开会", "去", "见面", "预约", "参加", "高铁", "飞机", "请", "约"]

/-- Todo keywords from `process_input` (`brain.py` line 91). -/
def todo_keywords : List String := ["记得", "需要", "办", "做", "带"]

/-- Idea keywords from `process_input` (`brain.py` line 92). -/
def idea_keywords : List String := ["我想", "主意", "灵感", "觉得", "可能", "不错", "建议"]

/-- Python `any(k in text for k in keywords)`. -/
def containsAny (text : String) (ks : List String) : Bool :=
  ks.any (fun k => strContainsSub text k)

/-- The category decision chain of `process_input` (`brain.py` lines 94-111).
`parsedDate` is the first match of the external temporal extractor; `now` is
the reference time. -/
def classifyCategory (parsedDate : Option Int) (now : Int) (text : String) : String :=
  let is_future := match parsedDate with
    | some d => decide (d > now)
    | none => false
  if is_future then "待办"
  else if containsAny text finance_keywords then "财务"
  else if parsedDate.isSome || containsAny text schedule_keywords then "日程"
  else if containsAny text idea_keywords then "创意"
  else if containsAny text todo_keywords then "待办"
  else "创意"

/-- Initial status computed at `brain.py` line 113:
`"Done" if category in ["财务", "日程"] else "Pending"`. -/
def classifyStatus (category : String) : String :=
  if category = "财务" ∨ category = "日程" then "Done" else "Pending"

/-- Append one record to the store (`save_record`, `brain.py` lines 39-51);
`recordedAt` stands for `datetime.now()` at save time. -/
def save_record (store : List Record) (recordedAt : Int) (category content : String)
    (targetTime : Option Int) (status : String) (cost : ℚ) : List Record :=
  store ++ [{ recordedAt := recordedAt, category := category, content := content,
              targetTime := targetTime, status := status, linkedCost := cost }]

/-- The classify-and-persist entry point `process_input` (`brain.py` lines 79-116):
returns the `(category, parsed_date)` pair the source returns, together with the
store state after the internal `save_record` call. -/
def process_input (store : List Record) (text : String) (parsedDate : Option Int)
    (now : Int) : String × Option Int × List Record :=
  let category := classifyCategory parsedDate now text
  let status := classifyStatus category
  (category, parsedDate, save_record store now category text parsedDate status 0)

/-- Classification order written from the specification's words: future date
first, then finance keyword, then (date present OR schedule keyword), then
idea keyword, then todo keyword, then the Idea fallback. Stated per the spec,
to be compared with `classifyCategory` taken from the source. -/
def specCategory (parsedDate : Option Int) (now : Int) (text : String) : String :=
  match parsedDate with
  | some d =>
    if d > now then "待办"
    else if containsAny text finance_keywords then "财务"
    else "日程"
  | none =>
    if containsAny text finance_keywords then "财务"
    else if containsAny text schedule_keywords then "日程"
    else if containsAny text idea_keywords then "创意"
    else if containsAny text todo_keywords then "待办"
    else "创意"

/-- The classifier only ever produces one of the four category strings. -/
lemma classifyCategory_cases (parsedDate : Option Int) (now : Int) (text : String) :
    classifyCategory parsedDate now text = "待办" ∨
    classifyCategory parsedDate now text = "财务" ∨
    classifyCategory parsedDate now text = "日程" ∨
    classifyCategory parsedDate now text = "创意" := by
  unfold classifyCategory
  cases parsedDate <;> dsimp <;> split_ifs <;> simp

/-- One primitive operation on the persistent store: a whole-file overwrite
(`df.to_csv(MEMORY_FILE, index=False)`) or an append of one row
(`to_csv(..., mode='a')` inside `save_record`). -/
inductive StoreEvent where
  | overwrite (s : List Record)
  | append (r : Record)
  deriving DecidableEq, Repr

/-- Replay one storage event on the current store contents. -/
def applyEvent (store : List Record) : StoreEvent → List Record
  | .overwrite s => s
  | .append r => store ++ [r]

/-- The in-memory mutation of the addressed row performed by `update_status`
(`brain.py` lines 60-67): set `状态` and `关联花销`, then promote `待办` to
`日程` when the new status is Done. -/
def update_status_primary (store : List Record) (index : Nat) (new_status : String)
    (total_cost : ℚ) : List Record :=
  match store[index]? with
  | none => store
  | some r =>
    let r1 := { r with status := new_status, linkedCost := total_cost }
    let r2 := if r1.category = "待办" ∧ new_status = "Done"
              then { r1 with category := "日程" } else r1
    store.set index r2

/-- The derived expense record appended for one expense item
(`brain.py` line 77): `save_record(cat, f"{original_content} (来自待办)",
status="Done", cost=cost)`. -/
def derivedRecord (nowT : Int) (original_content : String) (item : ExpenseItem) : Record :=
  { recordedAt := nowT, category := item.category,
    content := original_content ++ " (来自待办)", targetTime := none,
    status := "Done", linkedCost := item.cost }

/-- The sequence of storage operations issued by `update_status`
(`brain.py` lines 53-77): first the full-store overwrite persisting the new
status/category/linked-cost, then one append per expense item with
positive cost. -/
def update_status_events (store : List Record) (index : Nat) (new_status : String)
    (expense_list : List ExpenseItem) (nowT : Int) : List StoreEvent :=
  let total_cost := (expense_list.map (·.cost)).sum
  let df2 := update_status_primary store index new_status total_cost
  let original_content := (df2[index]?.map Record.content).getD ""
  StoreEvent.overwrite df2 ::
    expense_list.filterMap (fun item =>
      if item.cost > 0
      then some (StoreEvent.append (derivedRecord nowT original_content item))
      else none)

/-- Final store contents after `update_status` runs to completion. -/
def update_status (store : List Record) (index : Nat) (new_status : String)
    (expense_list : List ExpenseItem) (nowT : Int) : List Record :=
  (update_status_events store index new_status expense_list nowT).foldl applyEvent store

/-- Insert a record into a list kept ordered by `recordedAt`. -/
def insertByTime (r : Record) : List Record → List Record
  | [] => [r]
  | x :: xs => if r.recordedAt ≤ x.recordedAt then r :: x :: xs else x :: insertByTime r xs

/-- Sort the store by `记录时间` (`df_clean.sort_values("记录时间_dt")`). -/
def sortByTime : List Record → List Record
  | [] => []
  | r :: rs => insertByTime r (sortByTime rs)

/-- The per-row duplicate test of the cleanup pass (`brain.py` lines 362-370):
a row is a duplicate when a previous row exists whose content and category
match and whose time is less than 60 seconds earlier. -/
def is_duplicate (prev : Option Record) (cur : Record) : Bool :=
  match prev with
  | none => false
  | some p =>
    decide (cur.content = p.content) && decide (cur.category = p.category) &&
      decide (cur.recordedAt - p.recordedAt < 60)

/-- Pair each row of the sorted store with its duplicate flag, threading the
previous row exactly as the `shift(1)` columns do. -/
def markDups (prev : Option Record) : List Record → List (Record × Bool)
  | [] => []
  | r :: rs => (r, is_duplicate prev r) :: markDups (some r) rs

/-- The deduplication pass (`brain.py` lines 340-381): sort by record time,
flag rows duplicating their immediate predecessor, keep the non-flagged rows
projected back to the six original columns. -/
def clean_duplicates (store : List Record) : List Record :=
  ((markDups none (sortByTime store)).filter (fun p => !p.2)).map Prod.fst

/-- The persisted tabular store as a raw table: a header row and data rows.
`none` models an absent file. -/
structure MemTable where
  columns : List String
  rows : List (List String)
  deriving DecidableEq, Repr

/-- Header of a freshly initialized store (`brain.py` line 30). -/
def requiredColumns : List String := ["记录时间", "分类", "内容", "目标时间", "状态", "关联花销"]

/-- The store initializer `init_memory` (`brain.py` lines 19-31): reset to an
empty table with the required columns when the file is absent or lacks the
`状态` column, otherwise leave the file untouched. -/
def init_memory : Option MemTable → MemTable
  | none => { columns := requiredColumns, rows := [] }
  | some t => if "状态" ∈ t.columns then t else { columns := requiredColumns, rows := [] }

/-- Result of `get_report_data`: `None` for an empty store, the
"该时间段无记录。" sentinel, or the summary fields (total spending, schedule
contents, idea contents). -/
inductive ReportData where
  | noStore
  | noRecords
  | summary (totalCost : ℚ) (schedules ideas : List String)
  deriving DecidableEq, Repr

/-- Window start used by `get_report_data` (`brain.py` lines 127-134). -/
def reportStart (now : Int) (period : String) : Int :=
  if period = "week" then now - 7 * 86400
  else if period = "month" then now - 30 * 86400
  else if period = "year" then now - 365 * 86400
  else now - 30 * 86400

/-- The report aggregator `get_report_data` (`brain.py` lines 118-155):
filter records strictly newer than the window start, then total the spending
over finance-flagged rows and collect schedule and idea contents. -/
def get_report_data (store : List Record) (now : Int) (period : String) : ReportData :=
  if store.isEmpty then .noStore
  else
    let filtered := store.filter (fun r => r.recordedAt > reportStart now period)
    if filtered.isEmpty then .noRecords
    else
      let finance := filtered.filter (fun r => r.category = "财务" ∨ r.linkedCost > 0)
      .summary ((finance.map (·.linkedCost)).sum)
        ((filtered.filter (fun r => r.category = "日程")).map (·.content))
        ((filtered.filter (fun r => r.category = "创意")).map (·.content))

/-- Day of week of an epoch-second timestamp, Monday = 0 (pandas
`dt.dayofweek`); epoch day zero (1970-01-01) was a Thursday. -/
def weekday (t : Int) : Int := (t.ediv 86400 + 3).emod 7

/-- Hour of day of an epoch-second timestamp (pandas `dt.hour`). -/
def hourOf (t : Int) : Int := (t.emod 86400).ediv 3600

/-- Weekend flag (`weekday >= 5`, `export_to_kb.py` line 59). -/
def isWeekend (t : Int) : Bool := weekday t ≥ 5

/-- Number of occurrences of `a` in `l`. -/
def countOcc [DecidableEq α] (l : List α) (a : α) : Nat :=
  (l.filter (fun b => b = a)).length

/-- First element of `l` attaining the maximal occurrence count; models
`value_counts().index[0]`. -/
def mostFrequentFirst [DecidableEq α] (l : List α) : Option α :=
  l.find? (fun a => l.all (fun b => countOcc l b ≤ countOcc l a))

/-- Smallest value attaining the maximal occurrence count; models
`Series.mode()[0]`. -/
def modeSmallest (l : List Int) : Option Int :=
  (l.filter (fun a => l.all (fun b => countOcc l b ≤ countOcc l a))).min?

/-- Finance pattern block of `analyze_patterns` (`export_to_kb.py` lines 64-75). -/
structure FinanceStats where
  total : ℚ
  weekendPct : ℚ
  avgPerDay : ℚ
  topCategory : Option String
  deriving DecidableEq, Repr

/-- Full pattern summary of `analyze_patterns`. -/
structure Patterns where
  finance : Option FinanceStats
  completionRate : ℚ
  totalTodos : Nat
  completed : Nat
  creativity : Option (Nat × Option Int × Option Int)
  deriving DecidableEq, Repr

/-- Cutoff used by `analyze_patterns` (`export_to_kb.py` lines 46-49):
seven days back for the week window, otherwise the first day of the current
month (`now.replace(day=1)`, passed in as `monthStart`). -/
def analyzeCutoff (now monthStart : Int) (period : String) : Int :=
  if period = "week" then now - 7 * 86400 else monthStart

/-- The pattern analyzer `analyze_patterns` (`export_to_kb.py` lines 42-103):
select rows with `记录时间 >= cutoff`, then compute spending totals and the
weekend split, the todo completion counts, and the idea peak statistics over
that selection. `nowDay` is `now.day`. -/
def analyze_patterns (store : List Record) (now monthStart : Int) (nowDay : Nat)
    (period : String) : Option Patterns :=
  let data := store.filter (fun r => r.recordedAt ≥ analyzeCutoff now monthStart period)
  if data.isEmpty then none
  else
    let finance_data := data.filter (fun r => r.linkedCost > 0)
    let fin : Option FinanceStats :=
      if finance_data.isEmpty then none
      else
        let total := (finance_data.map (·.linkedCost)).sum
        let weekend := ((finance_data.filter (fun r => isWeekend r.recordedAt)).map
          (·.linkedCost)).sum
        some { total := total
               weekendPct := if total > 0 then weekend / total * 100 else 0
               avgPerDay := if period = "week" then total / 7 else total / (nowDay : ℚ)
               topCategory := mostFrequentFirst (finance_data.map (·.category)) }
    let todos := data.filter (fun r => r.category = "待办")
    let done_todos := data.filter (fun r => r.category = "日程" ∧ r.status = "Done")
    let completion : ℚ :=
      if todos.length > 0 then (done_todos.length : ℚ) / (todos.length : ℚ) * 100 else 0
    let ideas := data.filter (fun r => r.category = "创意")
    let creat : Option (Nat × Option Int × Option Int) :=
      if ideas.isEmpty then none
      else some (ideas.length,
        modeSmallest (ideas.map (fun r => hourOf r.recordedAt)),
        mostFrequentFirst (ideas.map (fun r => weekday r.recordedAt)))
    some { finance := fin, completionRate := completion, totalTodos := todos.length,
           completed := done_todos.length, creativity := creat }

/-- The narrative wrapper `call_ai_report` (`brain.py` lines 157-187):
`openai_available` models whether the `openai` import succeeded, `remote`
the outcome of the chat-completion call executed inside the `try` block. -/
def call_ai_report (openai_available : Bool) (remote : Except String String) : String :=
  if !openai_available then "请先安装 openai 库 (pip install openai)"
  else
    match remote with
    | .ok content => content
    | .error e => "AI 调用失败: " ++ e

/-- The insight wrapper `call_ai_for_insights` (`export_to_kb.py` lines
105-141): the whole body runs inside a `try` whose handler returns a text
payload embedding the error. -/
def call_ai_for_insights (remote : Except String String) : String :=
  match remote with
  | .ok content => content
  | .error e => "⚠️ AI 分析暂时不可用: " ++ e ++ "\n\n请查看上方的统计数据。"

/-- Concrete sample row: a pending todo, used to evaluate operations on
closed inputs. -/
def sampleTodo : Record :=
  { recordedAt := 0, category := "待办", content := "去北京", targetTime := some 100,
    status := "Pending", linkedCost := 0 }

/-- Concrete sample row: a pending idea. -/
def sampleIdea : Record :=
  { recordedAt := 10, category := "创意", content := "我想写书", targetTime := none,
    status := "Pending", linkedCost := 0 }

/-- Concrete sample row: a completed schedule entry. -/
def sampleSchedule : Record :=
  { recordedAt := 20, category := "日程", content := "开会", targetTime := none,
    status := "Done", linkedCost := 0 }

end TimeCapsule

/-- C1: for every input text and reference time, `classifyCategory` follows the
first-match-wins order of the specification (future date → Todo; finance
keyword → Finance; date present or schedule keyword → Schedule; idea
keyword → Idea; todo keyword → Todo; fallback Idea), and in particular any
extracted date strictly after `now` forces category Todo. -/
theorem TimeCapsule.classify_order_spec (parsedDate : Option Int) (now : Int) (text : String) :
    TimeCapsule.classifyCategory parsedDate now text
      = TimeCapsule.specCategory parsedDate now text
    ∧ (∀ d : Int, parsedDate = some d → d > now →
        TimeCapsule.classifyCategory parsedDate now text = "待办") := by
  constructor
  · unfold TimeCapsule.classifyCategory TimeCapsule.specCategory
    cases parsedDate <;> dsimp <;> split_ifs <;> simp_all
  · intro d hd hgt
    subst hd
    unfold TimeCapsule.classifyCategory
    simp [hgt]

/-- Witness for C1 at a concrete input: a future date (5 > 0) with a finance
keyword in the text still classifies as Todo. -/
theorem TimeCapsule.classify_order_spec_witness :
    TimeCapsule.classifyCategory (some 5) 0 "买机票" = "待办" :=
  (TimeCapsule.classify_order_spec (some 5) 0 "买机票").2 5 rfl (by decide)

/-- C9: the initial status of a classified record is Done exactly when the
category is Finance or Schedule, Pending otherwise (so Todo and Idea records
start Pending), and `process_input` persists a record carrying exactly that
category and status. -/
theorem TimeCapsule.initial_status_rule (store : List TimeCapsule.Record)
    (parsedDate : Option Int) (now : Int) (text : String) :
    (TimeCapsule.classifyStatus (TimeCapsule.classifyCategory parsedDate now text) = "Done" ↔
      (TimeCapsule.classifyCategory parsedDate now text = "财务" ∨
       TimeCapsule.classifyCategory parsedDate now text = "日程"))
    ∧ (TimeCapsule.classifyCategory parsedDate now text = "待办" ∨
       TimeCapsule.classifyCategory parsedDate now text = "创意" →
       TimeCapsule.classifyStatus (TimeCapsule.classifyCategory parsedDate now text) = "Pending")
    ∧ (TimeCapsule.process_input store text parsedDate now).2.2 =
        store ++ [{ recordedAt := now,
                    category := TimeCapsule.classifyCategory parsedDate now text,
                    content := text, targetTime := parsedDate,
                    status := TimeCapsule.classifyStatus
                      (TimeCapsule.classifyCategory parsedDate now text),
                    linkedCost := 0 }] := by
  refine ⟨?_, ?_, rfl⟩
  · rcases TimeCapsule.classifyCategory_cases parsedDate now text with h | h | h | h <;>
      rw [h] <;> simp [TimeCapsule.classifyStatus]
  · rcases TimeCapsule.classifyCategory_cases parsedDate now text with h | h | h | h <;>
      rw [h] <;> simp [TimeCapsule.classifyStatus]

/-- Witness for C9 at a concrete input: a schedule-keyword text with no date
is classified Schedule with initial status Done, and an idealess plain text
falls to Idea with status Pending. -/
theorem TimeCapsule.initial_status_rule_witness :
    TimeCapsule.classifyStatus (TimeCapsule.classifyCategory none 0 "abc") = "Pending" :=
  (TimeCapsule.initial_status_rule [] none 0 "abc").2.1 (by right; decide)


namespace TimeCapsule

/-- Replaying the append events produced from an expense list appends exactly
the derived records of the positive-cost items, in order. -/
lemma foldl_applyEvent_appends (t : Int) (oc : String) (items : List ExpenseItem) :
    ∀ s : List Record,
    (items.filterMap (fun item =>
        if item.cost > 0 then some (StoreEvent.append (derivedRecord t oc item))
        else none)).foldl applyEvent s
      = s ++ (items.filter (fun item => item.cost > 0)).map (derivedRecord t oc) := by
  induction items with
  | nil => intro s; simp
  | cons x xs ih =>
    intro s
    by_cases hx : x.cost > 0
    · simp only [List.filterMap_cons, if_pos hx, List.foldl_cons, List.filter_cons,
        decide_eq_true_eq, hx, if_true, List.map_cons]
      rw [show applyEvent s (StoreEvent.append (derivedRecord t oc x))
            = s ++ [derivedRecord t oc x] from rfl, ih, List.append_assoc]
      rfl
    · simp only [List.filterMap_cons, if_neg hx, List.filter_cons, decide_eq_true_eq,
        hx, if_false]
      exact ih s

/-- The final store produced by `update_status` is the persisted primary store
followed by the derived records of the positive-cost expense items. -/
lemma update_status_eq (store : List Record) (index : Nat) (ns : String)
    (el : List ExpenseItem) (t : Int) :
    update_status store index ns el t
      = update_status_primary store index ns ((el.map (·.cost)).sum)
        ++ (el.filter (fun item => item.cost > 0)).map
            (derivedRecord t
              (((update_status_primary store index ns
                  ((el.map (·.cost)).sum))[index]?.map Record.content).getD "")) := by
  unfold update_status update_status_events
  simp only [List.foldl_cons]
  rw [show applyEvent store (StoreEvent.overwrite (update_status_primary store index ns
        ((el.map (·.cost)).sum))) = update_status_primary store index ns
        ((el.map (·.cost)).sum) from rfl]
  exact foldl_applyEvent_appends t _ el _

/-- The primary mutation does not change the number of rows. -/
lemma update_status_primary_length (store : List Record) (index : Nat) (ns : String)
    (tc : ℚ) : (update_status_primary store index ns tc).length = store.length := by
  unfold update_status_primary
  cases hi : store[index]? <;> simp

/-- Contents of the mutated row after the primary mutation: content is kept,
status and linked cost are set, and the category is promoted to `日程`
exactly when the row was a `待办` completed with status Done. -/
lemma update_status_primary_get (store : List Record) (index : Nat) (ns : String)
    (tc : ℚ) (h : index < store.length) :
    (update_status_primary store index ns tc)[index]?
      = some (if (store.get ⟨index, h⟩).category = "待办" ∧ ns = "Done"
              then { store.get ⟨index, h⟩ with
                     status := ns, linkedCost := tc, category := "日程" }
              else { store.get ⟨index, h⟩ with status := ns, linkedCost := tc }) := by
  unfold update_status_primary
  rw [List.getElem?_eq_getElem h]
  by_cases hc : (store[index]).category = "待办" ∧ ns = "Done" <;>
    simp [List.getElem?_set, h, hc, List.get_eq_getElem]

/-- Rows other than the addressed one are untouched by the primary mutation. -/
lemma update_status_primary_get_other (store : List Record) (index : Nat) (ns : String)
    (tc : ℚ) (j : Nat) (hj : j ≠ index) :
    (update_status_primary store index ns tc)[j]? = store[j]? := by
  have hne : index ≠ j := Ne.symm hj
  unfold update_status_primary
  cases hi : store[index]? with
  | none => rfl
  | some r => simp [List.getElem?_set, hne]

end TimeCapsule

namespace TimeCapsule

/-- Flagging rows preserves the row sequence. -/
lemma markDups_map_fst : ∀ (l : List Record) (prev : Option Record),
    (markDups prev l).map Prod.fst = l := by
  intro l
  induction l with
  | nil => intro prev; rfl
  | cons r rs ih => intro prev; simp [markDups, ih]

/-- Membership through ordered insertion. -/
lemma mem_insertByTime {x r : Record} : ∀ {l : List Record},
    x ∈ insertByTime r l ↔ x = r ∨ x ∈ l := by
  intro l
  induction l with
  | nil => simp [insertByTime]
  | cons y ys ih =>
    simp only [insertByTime]
    split_ifs
    · simp [List.mem_cons]
    · simp only [List.mem_cons, ih]
      tauto

/-- Sorting the store permutes it, so membership is preserved. -/
lemma mem_sortByTime {x : Record} : ∀ {l : List Record}, x ∈ sortByTime l ↔ x ∈ l := by
  intro l
  induction l with
  | nil => simp [sortByTime]
  | cons y ys ih => simp [sortByTime, mem_insertByTime, ih]

/-- Every row surviving deduplication is a row of the original store. -/
lemma clean_duplicates_subset (store : List Record) :
    ∀ r ∈ clean_duplicates store, r ∈ store := by
  intro r hr
  unfold clean_duplicates at hr
  rcases List.mem_map.mp hr with ⟨p, hp, rfl⟩
  have hp1 : p ∈ markDups none (sortByTime store) := (List.mem_filter.mp hp).1
  have hmem : p.1 ∈ (markDups none (sortByTime store)).map Prod.fst :=
    List.mem_map_of_mem Prod.fst hp1
  rw [markDups_map_fst] at hmem
  exact mem_sortByTime.mp hmem

end TimeCapsule

/-- C6: in every execution of `update_status`, the whole-store overwrite that
persists the primary record's new status, category and linked cost is issued
before any append of a derived expense record: every append event in the
operation's storage trace is preceded by the primary overwrite. -/
theorem TimeCapsule.derived_after_commit (store : List TimeCapsule.Record) (index : Nat)
    (ns : String) (el : List TimeCapsule.ExpenseItem) (t : Int) (k : Nat)
    (r : TimeCapsule.Record) :
    (TimeCapsule.update_status_events store index ns el t)[k]?
        = some (TimeCapsule.StoreEvent.append r) →
    ∃ j, j < k ∧ (TimeCapsule.update_status_events store index ns el t)[j]?
      = some (TimeCapsule.StoreEvent.overwrite (TimeCapsule.update_status_primary store index
          ns ((el.map (·.cost)).sum))) := by
  intro hk
  have h0 : (TimeCapsule.update_status_events store index ns el t)[0]?
      = some (TimeCapsule.StoreEvent.overwrite (TimeCapsule.update_status_primary store index
          ns ((el.map (·.cost)).sum))) := by
    simp [TimeCapsule.update_status_events]
  cases k with
  | zero => rw [h0] at hk; simp at hk
  | succ m => exact ⟨0, Nat.succ_pos m, h0⟩

/-- Witness for C6: on a one-row store completed with a single 50-unit dining
expense, the event at position 1 is the derived append and it is preceded by
the primary overwrite at position 0. -/
theorem TimeCapsule.derived_after_commit_witness :
    (TimeCapsule.update_status_events [TimeCapsule.sampleTodo] 0 "Done"
        [⟨50, "餐饮"⟩] 7)[1]?
      = some (TimeCapsule.StoreEvent.append
          (TimeCapsule.derivedRecord 7 "去北京" { cost := 50, category := "餐饮" }))
    ∧ ∃ j, j < 1 ∧ (TimeCapsule.update_status_events [TimeCapsule.sampleTodo] 0 "Done"
        [⟨50, "餐饮"⟩] 7)[j]?
      = some (TimeCapsule.StoreEvent.overwrite (TimeCapsule.update_status_primary
          [TimeCapsule.sampleTodo] 0 "Done" ((([⟨50, "餐饮"⟩] :
            List TimeCapsule.ExpenseItem).map (·.cost)).sum))) :=
  ⟨by decide, TimeCapsule.derived_after_commit [TimeCapsule.sampleTodo] 0 "Done"
    [⟨50, "餐饮"⟩] 7 1
    (TimeCapsule.derivedRecord 7 "去北京" { cost := 50, category := "餐饮" }) (by decide)⟩

/-- C2: completing a record with an expense list appends exactly one derived
record per positive-amount item (zero-amount items produce none), carrying the
item's category, status Done, linked cost equal to the item's amount, and a
content referencing the original record's content; the original record's
linked cost becomes the sum of the amounts of all items, zero entries
included. -/
theorem TimeCapsule.expense_fanout (store : List TimeCapsule.Record) (index : Nat)
    (items : List TimeCapsule.ExpenseItem) (t : Int) (h : index < store.length) :
    TimeCapsule.update_status store index "Done" items t
      = TimeCapsule.update_status_primary store index "Done" ((items.map (·.cost)).sum)
        ++ (items.filter (fun it => it.cost > 0)).map (fun it =>
            ({ recordedAt := t, category := it.category,
               content := (store.get ⟨index, h⟩).content ++ " (来自待办)",
               targetTime := none, status := "Done",
               linkedCost := it.cost } : TimeCapsule.Record))
    ∧ (TimeCapsule.update_status store index "Done" items t).length
        = store.length + (items.filter (fun it => it.cost > 0)).length
    ∧ ∃ r', (TimeCapsule.update_status store index "Done" items t)[index]? = some r'
        ∧ r'.linkedCost = (items.map (·.cost)).sum ∧ r'.status = "Done" := by
  have hoc : ((TimeCapsule.update_status_primary store index "Done"
        ((items.map (·.cost)).sum))[index]?.map TimeCapsule.Record.content).getD ""
      = (store.get ⟨index, h⟩).content := by
    rw [TimeCapsule.update_status_primary_get store index "Done" _ h]
    split <;> rfl
  have heq := TimeCapsule.update_status_eq store index "Done" items t
  rw [hoc] at heq
  have hlen : index < (TimeCapsule.update_status_primary store index "Done"
      ((items.map (·.cost)).sum)).length := by
    rw [TimeCapsule.update_status_primary_length]; exact h
  refine ⟨?_, ?_, ?_⟩
  · rw [heq]; rfl
  · rw [heq]
    simp [TimeCapsule.update_status_primary_length]
  · rw [heq, List.getElem?_append, if_pos hlen,
      TimeCapsule.update_status_primary_get store index "Done" _ h]
    refine ⟨_, rfl, ?_, ?_⟩ <;> split <;> rfl

/-- Witness for C2: a one-row todo store completed with a 50-unit dining item
and a zero-amount item ends with two rows, the primary row carrying linked
cost 50. -/
theorem TimeCapsule.expense_fanout_witness :
    (0 < ([TimeCapsule.sampleTodo] : List TimeCapsule.Record).length)
    ∧ (TimeCapsule.update_status [TimeCapsule.sampleTodo] 0 "Done"
        [⟨50, "餐饮"⟩, ⟨0, "其它"⟩] 7).length
      = ([TimeCapsule.sampleTodo] : List TimeCapsule.Record).length
        + (([⟨50, "餐饮"⟩, ⟨0, "其它"⟩] : List TimeCapsule.ExpenseItem).filter
            (fun it => it.cost > 0)).length :=
  ⟨by decide, (TimeCapsule.expense_fanout [TimeCapsule.sampleTodo] 0
    [⟨50, "餐饮"⟩, ⟨0, "其它"⟩] 7 (by decide)).2.1⟩

/-- C3: completing a Todo row with an empty expense list sets its status to
Done and promotes its category to Schedule; a non-Todo row keeps its category
and only its status becomes Done; no operation (status update with any
arguments, deduplication, appending) turns a Schedule row back into a Todo
row. -/
theorem TimeCapsule.todo_promotion (store : List TimeCapsule.Record) (index : Nat)
    (t : Int) (h : index < store.length) :
    ((store.get ⟨index, h⟩).category = "待办" →
      ∃ r', (TimeCapsule.update_status store index "Done" [] t)[index]? = some r'
        ∧ r'.status = "Done" ∧ r'.category = "日程")
    ∧ ((store.get ⟨index, h⟩).category ≠ "待办" →
      ∃ r', (TimeCapsule.update_status store index "Done" [] t)[index]? = some r'
        ∧ r'.status = "Done" ∧ r'.category = (store.get ⟨index, h⟩).category)
    ∧ (∀ (ns : String) (el : List TimeCapsule.ExpenseItem) (j : Nat)
        (hj : j < store.length),
        (store.get ⟨j, hj⟩).category = "日程" →
        ∃ r', (TimeCapsule.update_status store index ns el t)[j]? = some r'
          ∧ r'.category = "日程")
    ∧ (∀ r ∈ TimeCapsule.clean_duplicates store, r ∈ store)
    ∧ (∀ (rt : Int) (c ct : String) (tt : Option Int) (s : String) (co : ℚ) (j : Nat),
        j < store.length →
        (TimeCapsule.save_record store rt c ct tt s co)[j]? = store[j]?) := by
  have hget : ∀ (ns : String) (el : List TimeCapsule.ExpenseItem) (j : Nat),
      j < store.length →
      (TimeCapsule.update_status store index ns el t)[j]?
        = (TimeCapsule.update_status_primary store index ns ((el.map (·.cost)).sum))[j]? := by
    intro ns el j hj
    rw [TimeCapsule.update_status_eq]
    have hlen : j < (TimeCapsule.update_status_primary store index ns
        ((el.map (·.cost)).sum)).length := by
      rw [TimeCapsule.update_status_primary_length]; exact hj
    rw [List.getElem?_append, if_pos hlen]
  refine ⟨?_, ?_, ?_, TimeCapsule.clean_duplicates_subset store, ?_⟩
  · intro hcat
    rw [hget "Done" [] index h,
      TimeCapsule.update_status_primary_get store index "Done" _ h]
    rw [if_pos ⟨hcat, rfl⟩]
    exact ⟨_, rfl, rfl, rfl⟩
  · intro hcat
    rw [hget "Done" [] index h,
      TimeCapsule.update_status_primary_get store index "Done" _ h]
    rw [if_neg (fun hb => hcat hb.1)]
    exact ⟨_, rfl, rfl, rfl⟩
  · intro ns el j hj hcat
    rw [hget ns el j hj]
    by_cases hji : j = index
    · subst hji
      rw [TimeCapsule.update_status_primary_get store j ns _ hj]
      rw [if_neg (fun hb => by rw [hcat] at hb; exact absurd hb.1 (by decide))]
      exact ⟨_, rfl, hcat⟩
    · rw [TimeCapsule.update_status_primary_get_other store index ns _ j hji,
        List.getElem?_eq_getElem hj]
      exact ⟨_, rfl, hcat⟩
  · intro rt c ct tt s co j hj
    simp [TimeCapsule.save_record, List.getElem?_append, hj]

/-- Witness for C3: completing the todo row of a two-row store promotes it to
a Done Schedule row. -/
theorem TimeCapsule.todo_promotion_witness :
    (([TimeCapsule.sampleSchedule, TimeCapsule.sampleTodo].get
        ⟨1, by decide⟩).category = "待办")
    ∧ ∃ r', (TimeCapsule.update_status [TimeCapsule.sampleSchedule, TimeCapsule.sampleTodo]
        1 "Done" [] 99)[1]? = some r'
      ∧ r'.status = "Done" ∧ r'.category = "日程" :=
  ⟨by decide, (TimeCapsule.todo_promotion
    [TimeCapsule.sampleSchedule, TimeCapsule.sampleTodo] 1 99 (by decide)).1 (by decide)⟩

/-- C4 counterexample: the claim says invoking the classifier does not modify
the record store, but `process_input` itself persists the classified record:
on the empty store it returns a non-empty store. -/
theorem TimeCapsule.process_input_mutates_store :
    (TimeCapsule.process_input [] "测试" none 0).2.2 ≠ [] := by
  decide

/-- C4 amended: for fixed text, extracted date and reference time the
classifier returns the same category, time and persisted record on every
invocation, independently of the current store contents — but the invocation
itself appends the classified record to the store rather than leaving
persistence to the caller. -/
theorem TimeCapsule.classify_deterministic (s1 s2 : List TimeCapsule.Record)
    (text : String) (parsedDate : Option Int) (now : Int) :
    ((TimeCapsule.process_input s1 text parsedDate now).1
      = (TimeCapsule.process_input s2 text parsedDate now).1)
    ∧ ((TimeCapsule.process_input s1 text parsedDate now).2.1
      = (TimeCapsule.process_input s2 text parsedDate now).2.1)
    ∧ ((TimeCapsule.process_input s1 text parsedDate now).2.2
      = s1 ++ [{ recordedAt := now,
                 category := TimeCapsule.classifyCategory parsedDate now text,
                 content := text, targetTime := parsedDate,
                 status := TimeCapsule.classifyStatus
                   (TimeCapsule.classifyCategory parsedDate now text),
                 linkedCost := 0 }]) :=
  ⟨rfl, rfl, rfl⟩

/-- C7: `init_memory` resets the store to the empty table with the required
columns when the underlying file is absent or lacks the `状态` column, and
leaves the table (all its rows and columns) unchanged when the `状态` column
is present; the repair returns normally in every case. -/
theorem TimeCapsule.init_memory_repair :
    (TimeCapsule.init_memory none
      = { columns := TimeCapsule.requiredColumns, rows := [] })
    ∧ (∀ t : TimeCapsule.MemTable, "状态" ∉ t.columns →
        TimeCapsule.init_memory (some t)
          = { columns := TimeCapsule.requiredColumns, rows := [] })
    ∧ (∀ t : TimeCapsule.MemTable, "状态" ∈ t.columns →
        TimeCapsule.init_memory (some t) = t) := by
  refine ⟨rfl, ?_, ?_⟩
  · intro t ht
    simp [TimeCapsule.init_memory, ht]
  · intro t ht
    simp [TimeCapsule.init_memory, ht]

/-- Witness for C7: a table containing the `状态` column is returned
unchanged, rows included. -/
theorem TimeCapsule.init_memory_repair_witness :
    ("状态" ∈ ({ columns := ["记录时间", "状态"], rows := [["a", "b"]] } :
        TimeCapsule.MemTable).columns)
    ∧ TimeCapsule.init_memory
        (some { columns := ["记录时间", "状态"], rows := [["a", "b"]] })
      = { columns := ["记录时间", "状态"], rows := [["a", "b"]] } :=
  ⟨by decide, TimeCapsule.init_memory_repair.2.2
    { columns := ["记录时间", "状态"], rows := [["a", "b"]] } (by decide)⟩

namespace TimeCapsule

/-- A list is a prefix of itself followed by anything. -/
lemma isPrefixList_self_append [DecidableEq α] :
    ∀ (l t : List α), isPrefixList l (l ++ t) = true := by
  intro l
  induction l with
  | nil => intro t; rfl
  | cons a as ih => intro t; simp [isPrefixList, ih]

/-- Substring containment survives prepending. -/
lemma containsSubList_append_left [DecidableEq α] (n : List α) :
    ∀ (pre hay : List α), containsSubList n hay = true →
      containsSubList n (pre ++ hay) = true := by
  intro pre
  induction pre with
  | nil => intro hay hh; simpa using hh
  | cons b bs ih =>
    intro hay hh
    have h2 := ih hay hh
    show (isPrefixList n (b :: (bs ++ hay)) || containsSubList n (bs ++ hay)) = true
    rw [h2, Bool.or_true]

/-- Any list occurs as a substring at the head of itself plus a tail. -/
lemma containsSubList_self_append [DecidableEq α] (l t : List α) :
    containsSubList l (l ++ t) = true := by
  cases l with
  | nil => cases t <;> simp [containsSubList, isPrefixList]
  | cons a as =>
    simp only [List.cons_append, containsSubList, isPrefixList_self_append,
      List.cons_append]
    have := isPrefixList_self_append (a :: as) t
    simp only [List.cons_append] at this
    simp [this]

end TimeCapsule

/-- C8: the report and insight wrappers never propagate a remote failure: on
any error raised by the chat-completion call they return a plain text string
embedding the error message, and on success they return the model's text. -/
theorem TimeCapsule.ai_failure_recovered (e content : String) :
    (TimeCapsule.call_ai_report true (Except.error e) = "AI 调用失败: " ++ e)
    ∧ (TimeCapsule.strContainsSub (TimeCapsule.call_ai_report true (Except.error e)) e
        = true)
    ∧ (TimeCapsule.call_ai_report true (Except.ok content) = content)
    ∧ (TimeCapsule.call_ai_for_insights (Except.error e)
        = "⚠️ AI 分析暂时不可用: " ++ e ++ "\n\n请查看上方的统计数据。")
    ∧ (TimeCapsule.strContainsSub (TimeCapsule.call_ai_for_insights (Except.error e)) e
        = true)
    ∧ (TimeCapsule.call_ai_for_insights (Except.ok content) = content) := by
  refine ⟨rfl, ?_, rfl, rfl, ?_, rfl⟩
  · show TimeCapsule.containsSubList e.data ("AI 调用失败: " ++ e).data = true
    rw [String.data_append]
    exact TimeCapsule.containsSubList_append_left e.data _ _
      (by simpa using TimeCapsule.containsSubList_self_append e.data [])
  · show TimeCapsule.containsSubList e.data
      ("⚠️ AI 分析暂时不可用: " ++ e ++ "\n\n请查看上方的统计数据。").data = true
    rw [String.data_append, String.data_append]
    rw [List.append_assoc]
    exact TimeCapsule.containsSubList_append_left e.data _ _
      (TimeCapsule.containsSubList_self_append e.data _)

namespace TimeCapsule

/-- Filtering with the same predicate twice equals filtering once. -/
lemma filter_filter_self (p : Record → Bool) :
    ∀ l : List Record, (l.filter p).filter p = l.filter p := by
  intro l
  induction l with
  | nil => rfl
  | cons x xs ih => by_cases hx : p x <;> simp [List.filter_cons, hx, ih]

end TimeCapsule

/-- C5 counterexample: the claim says every aggregation selects the records
with `recorded_at` strictly after now minus 30 days for the month window, but
`analyze_patterns` cuts at the first day of the current month with a
non-strict comparison: with now the 12th of the month, a record 20 days old
lies inside the claimed window yet the code selects nothing and returns no
patterns at all. -/
theorem TimeCapsule.analyze_patterns_window_counterexample :
    (([({ recordedAt := -20 * 86400, category := "待办", content := "x",
          targetTime := none, status := "Pending", linkedCost := 0 } :
        TimeCapsule.Record)].filter (fun r => r.recordedAt > 0 - 30 * 86400))
      = [({ recordedAt := -20 * 86400, category := "待办", content := "x",
            targetTime := none, status := "Pending", linkedCost := 0 } :
          TimeCapsule.Record)])
    ∧ TimeCapsule.analyze_patterns
        [({ recordedAt := -20 * 86400, category := "待办", content := "x",
            targetTime := none, status := "Pending", linkedCost := 0 } :
          TimeCapsule.Record)] 0 (-11 * 86400) 12 "month" = none := by
  constructor
  · decide
  · decide

/-- C5 amended: `get_report_data` does select exactly the records strictly
newer than now minus 7, 30 or 365 days for the week, month and year windows
and computes its spending total and content lists over that set, while
`analyze_patterns` instead selects records with `recorded_at` at least
(non-strictly) now minus 7 days for the week window and at least the first
day of the current month for the month window, computing its statistics over
that selection only. -/
theorem TimeCapsule.window_selection (store : List TimeCapsule.Record)
    (now ms : Int) (day : Nat) :
    (TimeCapsule.get_report_data store now "week"
      = (if store.isEmpty then TimeCapsule.ReportData.noStore
         else
           let sel := store.filter (fun r => r.recordedAt > now - 7 * 86400)
           if sel.isEmpty then TimeCapsule.ReportData.noRecords
           else TimeCapsule.ReportData.summary
             (((sel.filter (fun r => r.category = "财务" ∨ r.linkedCost > 0)).map
                (·.linkedCost)).sum)
             ((sel.filter (fun r => r.category = "日程")).map (·.content))
             ((sel.filter (fun r => r.category = "创意")).map (·.content))))
    ∧ (TimeCapsule.get_report_data store now "month"
      = (if store.isEmpty then TimeCapsule.ReportData.noStore
         else
           let sel := store.filter (fun r => r.recordedAt > now - 30 * 86400)
           if sel.isEmpty then TimeCapsule.ReportData.noRecords
           else TimeCapsule.ReportData.summary
             (((sel.filter (fun r => r.category = "财务" ∨ r.linkedCost > 0)).map
                (·.linkedCost)).sum)
             ((sel.filter (fun r => r.category = "日程")).map (·.content))
             ((sel.filter (fun r => r.category = "创意")).map (·.content))))
    ∧ (TimeCapsule.get_report_data store now "year"
      = (if store.isEmpty then TimeCapsule.ReportData.noStore
         else
           let sel := store.filter (fun r => r.recordedAt > now - 365 * 86400)
           if sel.isEmpty then TimeCapsule.ReportData.noRecords
           else TimeCapsule.ReportData.summary
             (((sel.filter (fun r => r.category = "财务" ∨ r.linkedCost > 0)).map
                (·.linkedCost)).sum)
             ((sel.filter (fun r => r.category = "日程")).map (·.content))
             ((sel.filter (fun r => r.category = "创意")).map (·.content))))
    ∧ (TimeCapsule.analyze_patterns store now ms day "week"
      = TimeCapsule.analyze_patterns
          (store.filter (fun r => r.recordedAt ≥ now - 7 * 86400)) now ms day "week")
    ∧ (TimeCapsule.analyze_patterns store now ms day "month"
      = TimeCapsule.analyze_patterns
          (store.filter (fun r => r.recordedAt ≥ ms)) now ms day "month")
    ∧ (∀ r : TimeCapsule.Record,
        r ∈ store.filter (fun r => r.recordedAt ≥ TimeCapsule.analyzeCutoff now ms "week")
          ↔ r ∈ store ∧ r.recordedAt ≥ now - 7 * 86400)
    ∧ (∀ r : TimeCapsule.Record,
        r ∈ store.filter (fun r => r.recordedAt ≥ TimeCapsule.analyzeCutoff now ms "month")
          ↔ r ∈ store ∧ r.recordedAt ≥ ms) := by
  refine ⟨rfl, rfl, rfl, ?_, ?_, ?_, ?_⟩
  · have hw : (fun r : TimeCapsule.Record => decide (r.recordedAt ≥ now - 7 * 86400))
        = (fun r : TimeCapsule.Record =>
            decide (r.recordedAt ≥ TimeCapsule.analyzeCutoff now ms "week")) := rfl
    rw [hw]
    simp only [TimeCapsule.analyze_patterns]
    rw [TimeCapsule.filter_filter_self]
  · have hm : (fun r : TimeCapsule.Record => decide (r.recordedAt ≥ ms))
        = (fun r : TimeCapsule.Record =>
            decide (r.recordedAt ≥ TimeCapsule.analyzeCutoff now ms "month")) := rfl
    rw [hm]
    simp only [TimeCapsule.analyze_patterns]
    rw [TimeCapsule.filter_filter_self]
  · intro r
    simp [List.mem_filter, TimeCapsule.analyzeCutoff]
  · intro r
    simp [List.mem_filter, TimeCapsule.analyzeCutoff]

namespace TimeCapsule

/-- Positional reading of the shift-based duplicate marking: the rows kept by
the flag-and-filter pipeline are exactly the rows whose predecessor (the
threaded `prev` at position 0, the row one position earlier otherwise) does
not trigger the duplicate test. -/
lemma markDups_filter_eq :
    ∀ (l : List Record) (prev : Option Record),
    ((markDups prev l).filter (fun p => !p.2)).map Prod.fst
      = (List.range l.length).filterMap (fun i =>
          match l[i]? with
          | none => none
          | some r =>
            if is_duplicate (if i = 0 then prev else l[i - 1]?) r then none
            else some r) := by
  intro l
  induction l with
  | nil => intro prev; rfl
  | cons r rs ih =>
    intro prev
    have hcomp : ((fun i =>
          match (r :: rs)[i]? with
          | none => none
          | some c =>
            if is_duplicate (if i = 0 then prev else (r :: rs)[i - 1]?) c then none
            else some c) ∘ Nat.succ)
        = (fun i =>
          match rs[i]? with
          | none => none
          | some c =>
            if is_duplicate (if i = 0 then some r else rs[i - 1]?) c then none
            else some c) := by
      funext i
      show (match (r :: rs)[i + 1]? with
            | none => none
            | some c =>
              if is_duplicate (if i + 1 = 0 then prev else (r :: rs)[i + 1 - 1]?) c
              then none else some c)
          = (match rs[i]? with
            | none => none
            | some c =>
              if is_duplicate (if i = 0 then some r else rs[i - 1]?) c then none
              else some c)
      have h1 : (r :: rs)[i + 1]? = rs[i]? := by simp
      have h2 : (r :: rs)[i]? = if i = 0 then some r else rs[i - 1]? := by
        cases i <;> simp
      rw [h1]
      cases rs[i]? with
      | none => rfl
      | some c =>
        simp only [Nat.succ_ne_zero, if_false, Nat.add_sub_cancel]
        rw [h2]
    simp only [List.length_cons, List.range_succ_eq_map, List.filterMap_cons,
      List.filterMap_map, List.getElem?_cons_zero]
    rw [hcomp, ← ih (some r)]
    cases hd : is_duplicate prev r <;> simp [markDups, List.filter_cons, hd]

end TimeCapsule

/-- C10: after sorting the store by record time, a row is dropped by the
deduplication pass exactly when the row immediately before it in that sorted
order has identical content, identical category, and a record time less than
60 seconds earlier; the earliest row of any such run (in particular the first
sorted row) is always kept, and the rewritten store consists only of original
six-column rows. -/
theorem TimeCapsule.dedup_predecessor_rule (store : List TimeCapsule.Record) :
    (TimeCapsule.clean_duplicates store
      = (List.range (TimeCapsule.sortByTime store).length).filterMap (fun i =>
          match (TimeCapsule.sortByTime store)[i]?,
            (if i = 0 then none else (TimeCapsule.sortByTime store)[i - 1]?) with
          | some r, some p =>
            if r.content = p.content ∧ r.category = p.category
               ∧ r.recordedAt - p.recordedAt < 60
            then none else some r
          | some r, none => some r
          | none, _ => none))
    ∧ (∀ r, (TimeCapsule.sortByTime store).head? = some r →
        r ∈ TimeCapsule.clean_duplicates store)
    ∧ (∀ r ∈ TimeCapsule.clean_duplicates store, r ∈ store) := by
  refine ⟨?_, ?_, TimeCapsule.clean_duplicates_subset store⟩
  · unfold TimeCapsule.clean_duplicates
    rw [TimeCapsule.markDups_filter_eq (TimeCapsule.sortByTime store) none]
    congr 1
    funext i
    cases h1 : (TimeCapsule.sortByTime store)[i]? with
    | none => rfl
    | some r =>
      cases h2 : (if i = 0 then none else (TimeCapsule.sortByTime store)[i - 1]?) with
      | none => simp [TimeCapsule.is_duplicate]
      | some p =>
        by_cases hc : r.content = p.content ∧ r.category = p.category
            ∧ r.recordedAt - p.recordedAt < 60
        · simp [TimeCapsule.is_duplicate, hc, hc.1, hc.2.1, hc.2.2]
        · simp [TimeCapsule.is_duplicate, hc, and_assoc]
  · intro r hr
    unfold TimeCapsule.clean_duplicates
    cases hs : TimeCapsule.sortByTime store with
    | nil => rw [hs] at hr; simp at hr
    | cons x xs =>
      rw [hs] at hr
      have hrx : x = r := by simpa using hr
      subst hrx
      simp [TimeCapsule.markDups, TimeCapsule.is_duplicate, List.filter_cons]

/-- Witness for C10: on a two-row store the first sorted row is kept by the
deduplication pass. -/
theorem TimeCapsule.dedup_predecessor_rule_witness :
    ((TimeCapsule.sortByTime [TimeCapsule.sampleIdea, TimeCapsule.sampleSchedule]).head?
      = some TimeCapsule.sampleIdea)
    ∧ TimeCapsule.sampleIdea ∈ TimeCapsule.clean_duplicates
        [TimeCapsule.sampleIdea, TimeCapsule.sampleSchedule] :=
  ⟨by decide, (TimeCapsule.dedup_predecessor_rule
    [TimeCapsule.sampleIdea, TimeCapsule.sampleSchedule]).2.1
    TimeCapsule.sampleIdea (by decide)⟩
